import Mathlib

/-- Modelled from the spec: vault lifecycle status.  The tests map
`Initialized ↦ 0, Open ↦ 1, Closed ↦ 2`; `Inited` stands for the first of
these (an uninitialized slot is `none` in the vault array). -/
inductive VaultStatus where
  | Inited
  | Open
  | Closed
deriving Repr, DecidableEq

/-- Modelled from the spec (§3 data model): one vault record.  `claimed` is
the set of beneficiary addresses that have claimed (the `claimedBy` /
`hasClaimed` bitmap). -/
structure Vault where
  status : VaultStatus
  totalAllocated : Nat
  currentBalance : Nat
  unclaimedShare : Nat
  merkleRoot : Nat
  endTime : Nat
  claimed : List Nat
deriving Repr, DecidableEq

/-- Modelled from the spec: full contract state.  `vaults` is the
fixed-length slot array (`none` = uninitialized slot), `popBalance` the
contract-held token balance, `totalVaultedBalance` the tracked balance
reserved for vaults, `registry` the beneficiary-registry address. -/
structure ContractState where
  vaults : List (Option Vault)
  totalVaultedBalance : Nat
  popBalance : Nat
  registry : Nat
deriving Repr, DecidableEq

/-- Modelled from the spec: events emitted by the contract.
`VaultInited` stands for the `VaultInitialized(id, root)` event. -/
inductive Event where
  | VaultInited (id : Nat) (root : Nat)
  | VaultOpened (id : Nat)
  | VaultClosed (id : Nat)
  | RewardAllocated (id : Nat) (amount : Nat)
  | RewardsDistributed (amount : Nat)
  | RewardClaimed (id : Nat) (beneficiary : Nat) (amount : Nat)
  | BeneficiaryRegistryChanged (oldReg : Nat) (newReg : Nat)
deriving Repr, DecidableEq

/-- The fixed share total: `parseEther "100"` = `100 * 10^18` fixed-point
units (spec §3). -/
def shareTotal : Nat := 100 * 10 ^ 18

/-- Modelled from the spec (§9): the leaf hash of a `(beneficiary, share)`
allocation pair, named after `makeElement` in the repo's merkle script.
An abstract injective pairing stands in for the concrete keccak hash. -/
def makeElement (beneficiary share : Nat) : Nat :=
  Nat.pair beneficiary share

/-- Modelled from the spec (§4.3): the sorted-pair hash combiner — the two
child hashes are ordered before hashing, so the combiner is symmetric. -/
def hashPair (a b : Nat) : Nat :=
  Nat.pair (min a b) (max a b)

/-- Modelled from the spec (§4.3): walk the proof path from a leaf hash,
combining sibling hashes with the sorted-pair combiner, up to a root. -/
def computeRoot (leaf : Nat) (proof : List Nat) : Nat :=
  proof.foldl hashPair leaf

/-- Modelled from the spec (§4.1 `getVault`): id out of range fails with
"Invalid vault id", an uninitialized slot with "Uninitialized vault slot". -/
def getVaultRec (s : ContractState) (id : Nat) : Except String Vault :=
  match s.vaults[id]? with
  | none => .error "Invalid vault id"
  | some none => .error "Uninitialized vault slot"
  | some (some v) => .ok v

/-- Is a slot an Open vault? -/
def isOpenSlot : Option Vault → Bool
  | some v => v.status = VaultStatus.Open
  | none => false

/-- The `currentBalance` a slot contributes to the open-vault balance sum
(0 for uninitialized, Inited and Closed slots). -/
def slotBal : Option Vault → Nat
  | some v => if v.status = VaultStatus.Open then v.currentBalance else 0
  | none => 0

/-- The `unclaimedShare` weight a slot contributes to the open-vault
weight sum (0 for non-Open slots). -/
def slotShare : Option Vault → Nat
  | some v => if v.status = VaultStatus.Open then v.unclaimedShare else 0
  | none => 0

/-- Sum of `currentBalance` over all Open vaults. -/
def openBalanceSum (vs : List (Option Vault)) : Nat :=
  (vs.map slotBal).sum

/-- Sum of `unclaimedShare` over all Open vaults (the total distribution
weight of spec §4.2). -/
def openShareSum (vs : List (Option Vault)) : Nat :=
  (vs.map slotShare).sum

/-- Modelled from the spec (§4.1 `initializeVault`): fails if `id` is out
of range ("Invalid vault id"), if `endTime` is not strictly in the future
("Invalid end block", the string the tests pin), or if the vault is
currently Open ("Vault must not be open"); otherwise resets the slot to a
fresh Initialized vault with full `shareTotal` unclaimed share and an empty
claim set, and emits `VaultInitialized(id, root)`. -/
def initVault (s : ContractState) (now id endTime root : Nat) :
    Except String (ContractState × List Event) :=
  match s.vaults[id]? with
  | none => .error "Invalid vault id"
  | some slot =>
    if endTime ≤ now then .error "Invalid end block"
    else if isOpenSlot slot then .error "Vault must not be open"
    else
      .ok ({ s with vaults := s.vaults.set id (some
               { status := VaultStatus.Inited
                 totalAllocated := 0
                 currentBalance := 0
                 unclaimedShare := shareTotal
                 merkleRoot := root
                 endTime := endTime
                 claimed := [] }) },
           [Event.VaultInited id root])

/-- Modelled from the spec (§4.1 `openVault`): requires status =
Initialized; sets status to Open and emits `VaultOpened(id)`. -/
def openVault (s : ContractState) (id : Nat) :
    Except String (ContractState × List Event) :=
  match s.vaults[id]? with
  | none => .error "Invalid vault id"
  | some none => .error "Uninitialized vault slot"
  | some (some v) =>
    if v.status = VaultStatus.Inited then
      .ok ({ s with vaults := s.vaults.set id (some { v with status := VaultStatus.Open }) },
           [Event.VaultOpened id])
    else .error "Vault must be initialized"

/-- Index of the first Open vault in the slot array, if any (the redirect
target resolved at close time, spec §4.1/§9). -/
def firstOpen : List (Option Vault) → Option Nat
  | [] => none
  | ov :: rest =>
    if isOpenSlot ov then some 0
    else (firstOpen rest).map (· + 1)

/-- Modelled from the spec (§4.1 `closeVault`): requires status = Open
("Vault must be open") and `now ≥ endTime` ("Vault has not ended").  Sets
status = Closed and zeroes `currentBalance`; the remaining balance is
redirected to the first remaining Open vault (added to both its
`totalAllocated` and `currentBalance`, tracked balance unchanged) or, when
no Open vault remains, transferred out to the treasury sink (tokens leave
the contract and the tracked vaulted balance drops by the remainder).
Emits `VaultClosed(id)`. -/
def closeVault (s : ContractState) (now id : Nat) :
    Except String (ContractState × List Event) :=
  match s.vaults[id]? with
  | none => .error "Invalid vault id"
  | some none => .error "Uninitialized vault slot"
  | some (some v) =>
    if v.status ≠ VaultStatus.Open then .error "Vault must be open"
    else if now < v.endTime then .error "Vault has not ended"
    else
      let r := v.currentBalance
      let vaults1 := s.vaults.set id
        (some { v with status := VaultStatus.Closed, currentBalance := 0 })
      match firstOpen vaults1 with
      | some j =>
        match vaults1[j]? with
        | some (some w) =>
          .ok ({ s with vaults := vaults1.set j (some
                   { w with totalAllocated := w.totalAllocated + r
                            currentBalance := w.currentBalance + r }) },
               [Event.VaultClosed id])
        | _ => .error "Invalid vault id"
      | none =>
        .ok ({ s with vaults := vaults1
                      totalVaultedBalance := s.totalVaultedBalance - r
                      popBalance := s.popBalance - r },
             [Event.VaultClosed id])

/-- The per-vault allocation of spec §4.2: `delta * weight / totalWeight`
(flooring division). -/
def allocOf (delta w totalW : Nat) : Nat := delta * w / totalW

/-- Apply one distribution round to a slot: an Open vault's
`totalAllocated` and `currentBalance` both grow by its allocation, other
slots are untouched. -/
def slotAllocate (delta totalW : Nat) : Option Vault → Option Vault
  | some v =>
    if v.status = VaultStatus.Open then
      some { v with
        totalAllocated := v.totalAllocated + allocOf delta v.unclaimedShare totalW
        currentBalance := v.currentBalance + allocOf delta v.unclaimedShare totalW }
    else some v
  | none => none

/-- The `RewardAllocated` events of one distribution round, one per Open
vault in slot order, starting from slot index `i`. -/
def allocEvents (delta totalW : Nat) : Nat → List (Option Vault) → List Event
  | _, [] => []
  | i, ov :: rest =>
    (if isOpenSlot ov then [Event.RewardAllocated i (allocOf delta (slotShare ov) totalW)]
     else []) ++ allocEvents delta totalW (i + 1) rest

/-- Total amount handed out in one distribution round (the flooring
remainder of each per-vault division is dropped — the deterministic
remainder policy of spec §4.2 — so only this total is added to the tracked
vaulted balance). -/
def allocTotal (delta totalW : Nat) (vs : List (Option Vault)) : Nat :=
  (vs.map (fun ov => allocOf delta (slotShare ov) totalW)).sum

/-- Modelled from the spec (§4.2 `distributeRewards`): fails when no vault
is Open ("No open vaults"); computes `delta = popBalance -
totalVaultedBalance` (tokens received since the last distribution) and
fails when it is zero ("No rewards"); otherwise credits every Open vault
with `delta * unclaimedShare / totalOpenShare`, adds the total credited to
the tracked vaulted balance, and emits one `RewardAllocated` per Open
vault plus a `RewardsDistributed` summary event. -/
def distributeRewards (s : ContractState) :
    Except String (ContractState × List Event) :=
  if s.vaults.any isOpenSlot then
    let delta := s.popBalance - s.totalVaultedBalance
    if delta = 0 then .error "No rewards"
    else
      let totalW := openShareSum s.vaults
      let total := allocTotal delta totalW s.vaults
      .ok ({ s with vaults := s.vaults.map (slotAllocate delta totalW)
                    totalVaultedBalance := s.totalVaultedBalance + total },
           allocEvents delta totalW 0 s.vaults ++ [Event.RewardsDistributed total])
  else .error "No open vaults"

/-- Modelled from the spec (§4.3 `verifyClaim`): recompute the leaf hash
from `(beneficiary, share)`, walk the proof path with the sorted-pair
combiner, and compare with the vault's stored `merkleRoot`.  Read-only: it
returns a `Bool` and no state. -/
def verifyClaim (s : ContractState) (id : Nat) (proof : List Nat)
    (beneficiary share : Nat) : Except String Bool :=
  match s.vaults[id]? with
  | none => .error "Invalid vault id"
  | some none => .error "Uninitialized vault slot"
  | some (some v) =>
    .ok (computeRoot (makeElement beneficiary share) proof = v.merkleRoot)

/-- Modelled from the spec (§4.4 `claimReward`), with the spec's check
order: sender must be the beneficiary; the vault must exist and hold a
nonzero `currentBalance` ("No reward"); the external registry must know
the beneficiary ("Beneficiary does not exist"); the proof must verify
("Invalid claim"); the pair must be unclaimed ("Already claimed"); the
share must not exceed `unclaimedShare` (unsigned-underflow revert).  Then
`entitlement = currentBalance * share / unclaimedShare` is transferred to
the beneficiary, the pair is marked claimed, `currentBalance` and the
tracked balances drop by the entitlement, `unclaimedShare` by the share,
and `RewardClaimed(id, beneficiary, entitlement)` is emitted. -/
def claimReward (benExists : Nat → Bool) (s : ContractState)
    (sender id : Nat) (proof : List Nat) (beneficiary share : Nat) :
    Except String (ContractState × List Event) :=
  if sender ≠ beneficiary then .error "Sender must be beneficiary"
  else
    match s.vaults[id]? with
    | none => .error "Invalid vault id"
    | some none => .error "Uninitialized vault slot"
    | some (some v) =>
      if v.currentBalance = 0 then .error "No reward"
      else if ¬ benExists beneficiary then .error "Beneficiary does not exist"
      else if computeRoot (makeElement beneficiary share) proof ≠ v.merkleRoot then
        .error "Invalid claim"
      else if beneficiary ∈ v.claimed then .error "Already claimed"
      else if v.unclaimedShare < share then .error "Subtraction overflow"
      else
        let entitlement := v.currentBalance * share / v.unclaimedShare
        .ok ({ s with
                 vaults := s.vaults.set id (some
                   { v with currentBalance := v.currentBalance - entitlement
                            unclaimedShare := v.unclaimedShare - share
                            claimed := beneficiary :: v.claimed })
                 totalVaultedBalance := s.totalVaultedBalance - entitlement
                 popBalance := s.popBalance - entitlement },
             [Event.RewardClaimed id beneficiary entitlement])

/-- Modelled from the spec (§6): `setBeneficiaryRegistry` rejects the
currently configured address ("Same BeneficiaryRegistry") and otherwise
swaps the reference and emits `BeneficiaryRegistryChanged(old, new)`. -/
def setBeneficiaryRegistry (s : ContractState) (newReg : Nat) :
    Except String (ContractState × List Event) :=
  if newReg = s.registry then .error "Same BeneficiaryRegistry"
  else
    .ok ({ s with registry := newReg },
         [Event.BeneficiaryRegistryChanged s.registry newReg])

/-- Modelled from the spec (§6): an external token transfer into the
contract — the only way the held balance grows. -/
def deposit (s : ContractState) (amount : Nat) : ContractState :=
  { s with popBalance := s.popBalance + amount }

/-- `hasClaimed(id, beneficiary)` view of the tests. -/
def hasClaimed (s : ContractState) (id beneficiary : Nat) : Bool :=
  match s.vaults[id]? with
  | some (some v) => beneficiary ∈ v.claimed
  | _ => false

/-- The vault record after a successful claim of `share` by `b`. -/
def vaultAfterClaim (v : Vault) (b share : Nat) : Vault :=
  { v with currentBalance := v.currentBalance - v.currentBalance * share / v.unclaimedShare
           unclaimedShare := v.unclaimedShare - share
           claimed := b :: v.claimed }

/-- The contract state after a successful claim. -/
def stateAfterClaim (s : ContractState) (id : Nat) (v : Vault) (b share : Nat) :
    ContractState :=
  { s with vaults := s.vaults.set id (some (vaultAfterClaim v b share))
           totalVaultedBalance :=
             s.totalVaultedBalance - v.currentBalance * share / v.unclaimedShare
           popBalance := s.popBalance - v.currentBalance * share / v.unclaimedShare }

/-- The vault record written by a successful `initializeVault`. -/
def freshVault (endTime root : Nat) : Vault :=
  { status := VaultStatus.Inited
    totalAllocated := 0
    currentBalance := 0
    unclaimedShare := shareTotal
    merkleRoot := root
    endTime := endTime
    claimed := [] }

/-- The closed vault record written by `closeVault`. -/
def closedVault (v : Vault) : Vault :=
  { v with status := VaultStatus.Closed, currentBalance := 0 }

/-- The state invariant of spec §3/§8, in the form needed inductively:
the sum of `currentBalance` over Open vaults equals the tracked
`totalVaultedBalance` (the claimed equality), every non-Open vault holds
zero balance, and the tracked vaulted balance never exceeds the
contract-held token balance. -/
def StateInv (s : ContractState) : Prop :=
  openBalanceSum s.vaults = s.totalVaultedBalance ∧
  (∀ ov ∈ s.vaults, ∀ v, ov = some v → v.status ≠ VaultStatus.Open → v.currentBalance = 0) ∧
  s.totalVaultedBalance ≤ s.popBalance

/-- Modelled from the spec (§9): one level of the incremental Merkle-tree
construction — adjacent hashes are combined pairwise with the sorted-pair
combiner, a trailing odd element is promoted unchanged. -/
def combineLevel : List Nat → List Nat
  | [] => []
  | [a] => [a]
  | a :: b :: rest => hashPair a b :: combineLevel rest

/-- Modelled from the spec (§9): the root of the committed allocation set —
collapse levels until a single hash remains (`merklize` in the repo's
merkle script). -/
def rootOfLeaves (l : List Nat) : Nat :=
  match l with
  | [] => 0
  | [a] => a
  | a :: b :: rest => rootOfLeaves (combineLevel (a :: b :: rest))
termination_by l.length
decreasing_by
  have key : ∀ (n : Nat) (l : List Nat), l.length ≤ n →
      (combineLevel l).length ≤ l.length := by
    intro n
    induction n with
    | zero =>
      intro l hl
      have hnil : l = [] := List.eq_nil_of_length_eq_zero (by omega)
      subst hnil
      simp [combineLevel]
    | succ n ih =>
      intro l hl
      rcases l with _ | ⟨a, _ | ⟨b, rest⟩⟩
      · simp [combineLevel]
      · simp [combineLevel]
      · have hr := ih rest (by simp only [List.length_cons] at hl; omega)
        simp only [combineLevel, List.length_cons]
        omega
  have hr := key rest.length rest (Nat.le_refl _)
  simp only [combineLevel, List.length_cons]
  omega

/-- Modelled from the spec (§9): the proof path for the leaf at index `i` —
the sibling hash at every level, bottom up (`getProof` in the repo's
merkle script). -/
def getProofAt (l : List Nat) (i : Nat) : List Nat :=
  match l with
  | [] => []
  | [_] => []
  | a :: b :: rest =>
    (if i % 2 = 1 then [(a :: b :: rest).getD (i - 1) 0]
     else if i + 1 < (a :: b :: rest).length then [(a :: b :: rest).getD (i + 1) 0]
     else []) ++ getProofAt (combineLevel (a :: b :: rest)) (i / 2)
termination_by l.length
decreasing_by
  have key : ∀ (n : Nat) (l : List Nat), l.length ≤ n →
      (combineLevel l).length ≤ l.length := by
    intro n
    induction n with
    | zero =>
      intro l hl
      have hnil : l = [] := List.eq_nil_of_length_eq_zero (by omega)
      subst hnil
      simp [combineLevel]
    | succ n ih =>
      intro l hl
      rcases l with _ | ⟨a, _ | ⟨b, rest⟩⟩
      · simp [combineLevel]
      · simp [combineLevel]
      · have hr := ih rest (by simp only [List.length_cons] at hl; omega)
        simp only [combineLevel, List.length_cons]
        omega
  have hr := key rest.length rest (Nat.le_refl _)
  simp only [combineLevel, List.length_cons]
  omega

instance {α β : Type} [DecidableEq α] [DecidableEq β] : DecidableEq (Except α β) :=
  fun a b => match a, b with
  | .ok x, .ok y => if h : x = y then isTrue (by rw [h]) else isFalse (by simp [h])
  | .error x, .error y => if h : x = y then isTrue (by rw [h]) else isFalse (by simp [h])
  | .ok _, .error _ => isFalse (by simp)
  | .error _, .ok _ => isFalse (by simp)

/-- The external registry stub the tests configure (always true). -/
def wBenEx : Nat → Bool := fun _ => true

def wVaultA : Vault :=
  { status := VaultStatus.Open, totalAllocated := 40, currentBalance := 40
    unclaimedShare := 100, merkleRoot := makeElement 7 25, endTime := 50, claimed := [] }

def wStateA : ContractState := ⟨[some wVaultA], 40, 40, 0⟩

def wVaultA' : Vault :=
  { status := VaultStatus.Open, totalAllocated := 40, currentBalance := 30
    unclaimedShare := 75, merkleRoot := makeElement 7 25, endTime := 50, claimed := [7] }

def wStateA' : ContractState := ⟨[some wVaultA'], 30, 30, 0⟩

/-- A vault whose single beneficiary holds the entire share total: the
first claim drains the balance completely. -/
def cVaultFull : Vault :=
  { status := VaultStatus.Open, totalAllocated := 10, currentBalance := 10
    unclaimedShare := 100, merkleRoot := makeElement 7 100, endTime := 50, claimed := [] }

def cStateFull : ContractState := ⟨[some cVaultFull], 10, 10, 0⟩

def cVaultDrained : Vault :=
  { status := VaultStatus.Open, totalAllocated := 10, currentBalance := 0
    unclaimedShare := 0, merkleRoot := makeElement 7 100, endTime := 50, claimed := [7] }

def cStateDrained : ContractState := ⟨[some cVaultDrained], 0, 0, 0⟩

def cVaultPart : Vault :=
  { status := VaultStatus.Open, totalAllocated := 10, currentBalance := 5
    unclaimedShare := 50, merkleRoot := makeElement 7 100, endTime := 50, claimed := [7] }

def cStatePart : ContractState := ⟨[some cVaultPart], 5, 5, 0⟩

def w8State : ContractState := ⟨[none], 0, 0, 0⟩

def w2Vault : Vault :=
  { status := VaultStatus.Open, totalAllocated := 0, currentBalance := 0
    unclaimedShare := 100, merkleRoot := 3, endTime := 50, claimed := [] }

def w2State : ContractState := ⟨[some w2Vault], 0, 10, 0⟩

def w2Vault' : Vault :=
  { status := VaultStatus.Open, totalAllocated := 10, currentBalance := 10
    unclaimedShare := 100, merkleRoot := 3, endTime := 50, claimed := [] }

def w2State' : ContractState := ⟨[some w2Vault'], 10, 10, 0⟩

def w5V0 : Vault :=
  { status := VaultStatus.Open, totalAllocated := 10, currentBalance := 4
    unclaimedShare := 60, merkleRoot := 3, endTime := 50, claimed := [] }

def w5V1 : Vault :=
  { status := VaultStatus.Open, totalAllocated := 2, currentBalance := 2
    unclaimedShare := 100, merkleRoot := 9, endTime := 999, claimed := [5] }

def w5State : ContractState := ⟨[some w5V0, some w5V1], 6, 6, 0⟩

def w5State' : ContractState :=
  ⟨[some (closedVault w5V0), some { w5V1 with totalAllocated := 6, currentBalance := 6 }],
   6, 6, 0⟩

def w6Vault : Vault :=
  { status := VaultStatus.Open, totalAllocated := 10, currentBalance := 4
    unclaimedShare := 60, merkleRoot := 3, endTime := 50, claimed := [] }

def w6State : ContractState := ⟨[some w6Vault, none], 4, 9, 0⟩

def w6State' : ContractState := ⟨[some (closedVault w6Vault), none], 0, 5, 0⟩

def w7Vault : Vault :=
  { status := VaultStatus.Open, totalAllocated := 0, currentBalance := 0
    unclaimedShare := 100, merkleRoot := 3, endTime := 50, claimed := [] }

def w7State : ContractState := ⟨[none, some w7Vault], 0, 10, 0⟩

def w9Leaves : List Nat := [makeElement 7 25, makeElement 8 75]

def w9Vault : Vault :=
  { status := VaultStatus.Open, totalAllocated := 0, currentBalance := 40
    unclaimedShare := 100, merkleRoot := rootOfLeaves w9Leaves, endTime := 50, claimed := [] }

def w9State : ContractState := ⟨[some w9Vault], 40, 40, 0⟩

/-! ## Lemmas and claim theorems -/

/-!
# BeneficiaryVaults: a shallow embedding of the reward-vault engine

The repository's core (spec §2–§4) is the `BeneficiaryVaults` accounting and
claim-verification engine.  Its Solidity source is not present in the
repository snapshot; only its test suite
(`packages/contracts/test/BeneficiaryVaults.test.ts`) is.  The definitions
below are therefore modelled from the spec (each doc comment says so),
kept consistent with the behaviour the test suite pins down (error strings,
field updates, event arguments).

Modelling conventions:
* addresses, hashes and token amounts are `Nat`; fixed-point share units are
  `Nat` (the full share total is `100 * 10^18`, as in the tests'
  `parseEther "100"`);
* unsigned integer arithmetic with revert-on-underflow (SafeMath) is
  modelled by explicit guards; `Nat` division is Solidity's flooring
  division;
* every state-mutating operation returns `Except String (State × events)`:
  a `.error` result models an atomic revert with the reason string (no
  partial state survives, spec §7), `.ok` carries the next state and the
  emitted events;
* the owner-authorization modifier (spec §6) is orthogonal to the claims
  treated here and is not modelled: operations are considered as called by
  the owner, except `claimReward` which takes an explicit `sender`;
* the external beneficiary registry (spec §6) is a capability parameter
  `benExists : Nat → Bool`; the token is modelled by `popBalance`, the
  contract-held balance, with `deposit` as the external transfer-in.
-/

/-! ## Characterization of successful claims -/

theorem claimReward_ok_elim (benExists : Nat → Bool) (s : ContractState)
    (sender id : Nat) (proof : List Nat) (b share : Nat)
    (s' : ContractState) (evs : List Event)
    (h : claimReward benExists s sender id proof b share = .ok (s', evs)) :
    sender = b ∧ ∃ v, s.vaults[id]? = some (some v) ∧
      v.currentBalance ≠ 0 ∧ benExists b = true ∧
      computeRoot (makeElement b share) proof = v.merkleRoot ∧
      b ∉ v.claimed ∧ share ≤ v.unclaimedShare ∧
      s' = stateAfterClaim s id v b share ∧
      evs = [Event.RewardClaimed id b (v.currentBalance * share / v.unclaimedShare)] := by
  unfold claimReward at h
  split at h
  · exact absurd h (by simp)
  · rename_i hslot
    split at h
    · exact absurd h (by simp)
    · exact absurd h (by simp)
    · rename_i v hv
      split at h
      · exact absurd h (by simp)
      · split at h
        · exact absurd h (by simp)
        · split at h
          · exact absurd h (by simp)
          · split at h
            · exact absurd h (by simp)
            · split at h
              · exact absurd h (by simp)
              · rename_i hbal hbex hroot hclaimed hshare
                rw [Except.ok.injEq, Prod.mk.injEq] at h
                refine ⟨by omega, v, hv, hbal, by simpa using hbex, by simpa using hroot,
                  hclaimed, by omega, h.1.symm, h.2.symm⟩

/-! ## List-level accounting lemmas -/

theorem openBalanceSum_set (vs : List (Option Vault)) (i : Nat)
    (old v' : Option Vault) (h : vs[i]? = some old) :
    openBalanceSum (vs.set i v') + slotBal old = openBalanceSum vs + slotBal v' := by
  induction vs generalizing i with
  | nil => simp at h
  | cons a rest ih =>
    cases i with
    | zero =>
      simp only [List.getElem?_cons_zero, Option.some.injEq] at h
      subst h
      simp [openBalanceSum, List.set]
      omega
    | succ n =>
      simp only [List.getElem?_cons_succ] at h
      have := ih n h
      simp [openBalanceSum, List.set] at this ⊢
      omega

theorem slotBal_le_openBalanceSum (vs : List (Option Vault)) (i : Nat)
    (ov : Option Vault) (h : vs[i]? = some ov) :
    slotBal ov ≤ openBalanceSum vs := by
  induction vs generalizing i with
  | nil => simp at h
  | cons a rest ih =>
    cases i with
    | zero =>
      simp only [List.getElem?_cons_zero, Option.some.injEq] at h
      subst h
      simp [openBalanceSum]
    | succ n =>
      simp only [List.getElem?_cons_succ] at h
      have := ih n h
      simp [openBalanceSum] at this ⊢
      omega

theorem firstOpen_spec (vs : List (Option Vault)) (j : Nat)
    (h : firstOpen vs = some j) :
    ∃ w, vs[j]? = some (some w) ∧ w.status = VaultStatus.Open := by
  induction vs generalizing j with
  | nil => simp [firstOpen] at h
  | cons a rest ih =>
    by_cases ha : isOpenSlot a
    · simp [firstOpen, ha] at h
      subst h
      cases a with
      | none => simp [isOpenSlot] at ha
      | some w =>
        refine ⟨w, by simp, ?_⟩
        simpa [isOpenSlot, decide_eq_true_eq] using ha
    · simp only [firstOpen, ha, if_neg, Bool.false_eq_true, reduceIte] at h
      cases hr : firstOpen rest with
      | none => simp [hr] at h
      | some k =>
        simp [hr] at h
        obtain ⟨w, hw, hws⟩ := ih k hr
        exact ⟨w, by simpa [← h] using hw, hws⟩

theorem firstOpen_none (vs : List (Option Vault)) (h : firstOpen vs = none) :
    ∀ ov ∈ vs, isOpenSlot ov = false := by
  induction vs with
  | nil => simp
  | cons a rest ih =>
    by_cases ha : isOpenSlot a
    · simp [firstOpen, ha] at h
    · simp only [firstOpen, ha, Bool.false_eq_true, reduceIte] at h
      intro ov hmem
      rcases List.mem_cons.mp hmem with rfl | hmem
      · simpa using ha
      · exact ih (by simpa using h) ov hmem

theorem openBalanceSum_eq_zero (vs : List (Option Vault))
    (h : ∀ ov ∈ vs, isOpenSlot ov = false) : openBalanceSum vs = 0 := by
  induction vs with
  | nil => rfl
  | cons a rest ih =>
    have ha := h a (by simp)
    have hrest := ih (fun ov hov => h ov (by simp [hov]))
    have hb : slotBal a = 0 := by
      cases a with
      | none => rfl
      | some v =>
        have ha' : v.status ≠ VaultStatus.Open := by
          simpa [isOpenSlot] using ha
        simp [slotBal, ha']
    have hsplit : openBalanceSum (a :: rest) = slotBal a + openBalanceSum rest := by
      simp [openBalanceSum]
    omega

/-- Summing flooring quotients never exceeds the flooring quotient of the
sum. -/
theorem sum_div_le_div_sum (l : List Nat) (n : Nat) :
    (l.map (· / n)).sum ≤ l.sum / n := by
  induction l with
  | nil => simp
  | cons a rest ih =>
    calc (List.map (· / n) (a :: rest)).sum = a / n + (rest.map (· / n)).sum := by simp
    _ ≤ a / n + rest.sum / n := by omega
    _ ≤ (a + rest.sum) / n := Nat.add_div_le_add_div _ _ _
    _ = (a :: rest).sum / n := by simp

/-- The total handed out by one distribution round over any slot list is at
most `delta * openShareSum / totalW`. -/
theorem allocTotal_le (delta totalW : Nat) (vs : List (Option Vault)) :
    allocTotal delta totalW vs ≤ delta * openShareSum vs / totalW := by
  have h1 : allocTotal delta totalW vs
      = ((vs.map (fun ov => delta * slotShare ov)).map (· / totalW)).sum := by
    rw [List.map_map]
    rfl
  have h2 : (vs.map (fun ov => delta * slotShare ov)).sum = delta * openShareSum vs := by
    simp [openShareSum, List.sum_map_mul_left]
  calc allocTotal delta totalW vs
      ≤ (vs.map (fun ov => delta * slotShare ov)).sum / totalW := by
        rw [h1]; exact sum_div_le_div_sum _ _
    _ = delta * openShareSum vs / totalW := by rw [h2]

/-- When the denominator is the open-share sum itself, the distributed
total never exceeds the delta. -/
theorem allocTotal_le_delta (delta : Nat) (vs : List (Option Vault)) :
    allocTotal delta (openShareSum vs) vs ≤ delta := by
  have h := allocTotal_le delta (openShareSum vs) vs
  rcases Nat.eq_zero_or_pos (openShareSum vs) with h0 | h0
  · calc allocTotal delta (openShareSum vs) vs ≤ delta * openShareSum vs / openShareSum vs := h
      _ = 0 := by simp [h0]
      _ ≤ delta := Nat.zero_le _
  · calc allocTotal delta (openShareSum vs) vs ≤ delta * openShareSum vs / openShareSum vs := h
      _ = delta := Nat.mul_div_cancel delta h0

/-! ## Characterization of the other operations -/

theorem initVault_ok_elim (s : ContractState) (now id endTime root : Nat)
    (s' : ContractState) (evs : List Event)
    (h : initVault s now id endTime root = .ok (s', evs)) :
    ∃ slot, s.vaults[id]? = some slot ∧ now < endTime ∧ isOpenSlot slot = false ∧
      s' = { s with vaults := s.vaults.set id (some (freshVault endTime root)) } ∧
      evs = [Event.VaultInited id root] := by
  unfold initVault at h
  split at h
  · exact absurd h (by simp)
  · rename_i slot hslot
    split at h
    · exact absurd h (by simp)
    · split at h
      · exact absurd h (by simp)
      · rename_i hend hopen
        rw [Except.ok.injEq, Prod.mk.injEq] at h
        exact ⟨slot, hslot, by omega, by simpa using hopen, h.1.symm, h.2.symm⟩

theorem openVault_ok_elim (s : ContractState) (id : Nat)
    (s' : ContractState) (evs : List Event)
    (h : openVault s id = .ok (s', evs)) :
    ∃ v, s.vaults[id]? = some (some v) ∧ v.status = VaultStatus.Inited ∧
      s' = { s with vaults := s.vaults.set id (some { v with status := VaultStatus.Open }) } ∧
      evs = [Event.VaultOpened id] := by
  unfold openVault at h
  split at h
  · exact absurd h (by simp)
  · exact absurd h (by simp)
  · rename_i v hv
    split at h
    · rename_i hst
      rw [Except.ok.injEq, Prod.mk.injEq] at h
      exact ⟨v, hv, hst, h.1.symm, h.2.symm⟩
    · exact absurd h (by simp)

theorem closeVault_ok_elim (s : ContractState) (now id : Nat)
    (s' : ContractState) (evs : List Event)
    (h : closeVault s now id = .ok (s', evs)) :
    ∃ v, s.vaults[id]? = some (some v) ∧ v.status = VaultStatus.Open ∧
      v.endTime ≤ now ∧ evs = [Event.VaultClosed id] ∧
      ((∃ j w, firstOpen (s.vaults.set id (some (closedVault v))) = some j ∧
          (s.vaults.set id (some (closedVault v)))[j]? = some (some w) ∧
          s' = { s with vaults := (s.vaults.set id (some (closedVault v))).set j (some
                   { w with totalAllocated := w.totalAllocated + v.currentBalance
                            currentBalance := w.currentBalance + v.currentBalance }) }) ∨
       (firstOpen (s.vaults.set id (some (closedVault v))) = none ∧
        s' = { s with vaults := s.vaults.set id (some (closedVault v))
                      totalVaultedBalance := s.totalVaultedBalance - v.currentBalance
                      popBalance := s.popBalance - v.currentBalance })) := by
  unfold closeVault at h
  split at h
  · exact absurd h (by simp)
  · exact absurd h (by simp)
  · rename_i v hv
    split at h
    · exact absurd h (by simp)
    · rename_i hst
      split at h
      · exact absurd h (by simp)
      · rename_i hend
        rw [not_ne_iff] at hst
        rw [Nat.not_lt] at hend
        simp only [closedVault] at *
        refine ⟨v, hv, hst, hend, ?_, ?_⟩
        · split at h
          · split at h
            · rw [Except.ok.injEq, Prod.mk.injEq] at h
              exact h.2.symm
            · exact absurd h (by simp)
          · rw [Except.ok.injEq, Prod.mk.injEq] at h
            exact h.2.symm
        · split at h
          · rename_i j hj
            split at h
            · rename_i w hw
              rw [Except.ok.injEq, Prod.mk.injEq] at h
              exact Or.inl ⟨j, w, hj, hw, h.1.symm⟩
            · exact absurd h (by simp)
          · rename_i hnone
            rw [Except.ok.injEq, Prod.mk.injEq] at h
            exact Or.inr ⟨hnone, h.1.symm⟩

theorem setBeneficiaryRegistry_ok_elim (s : ContractState) (newReg : Nat)
    (s' : ContractState) (evs : List Event)
    (h : setBeneficiaryRegistry s newReg = .ok (s', evs)) :
    newReg ≠ s.registry ∧ s' = { s with registry := newReg } ∧
      evs = [Event.BeneficiaryRegistryChanged s.registry newReg] := by
  unfold setBeneficiaryRegistry at h
  split at h
  · exact absurd h (by simp)
  · rename_i hne
    rw [Except.ok.injEq, Prod.mk.injEq] at h
    exact ⟨hne, h.1.symm, h.2.symm⟩

/-! ## The total-vaulted-balance invariant -/

theorem slotBal_zero_of_not_open (ov : Option Vault) (h : isOpenSlot ov = false) :
    slotBal ov = 0 := by
  cases ov with
  | none => rfl
  | some v =>
    have h' : v.status ≠ VaultStatus.Open := by simpa [isOpenSlot] using h
    simp [slotBal, h']

theorem slotBal_open (v : Vault) (h : v.status = VaultStatus.Open) :
    slotBal (some v) = v.currentBalance := by
  simp [slotBal, h]

/-- A claim entitlement never exceeds the vault's current balance. -/
theorem entitlement_le (cb share us : Nat) (h : share ≤ us) :
    cb * share / us ≤ cb := by
  rcases Nat.eq_zero_or_pos us with h0 | h0
  · subst h0
    interval_cases share
    simp
  · calc cb * share / us ≤ cb * us / us :=
        Nat.div_le_div_right (Nat.mul_le_mul_left cb h)
    _ = cb := Nat.mul_div_cancel cb h0

theorem slotBal_slotAllocate (delta totalW : Nat) (ov : Option Vault) :
    slotBal (slotAllocate delta totalW ov) = slotBal ov + allocOf delta (slotShare ov) totalW := by
  cases ov with
  | none => simp [slotAllocate, slotBal, slotShare, allocOf]
  | some v =>
    by_cases hst : v.status = VaultStatus.Open
    · simp [slotAllocate, slotBal, slotShare, hst]
    · simp [slotAllocate, slotBal, slotShare, hst, allocOf]

theorem openBalanceSum_map_slotAllocate (delta totalW : Nat) (vs : List (Option Vault)) :
    openBalanceSum (vs.map (slotAllocate delta totalW)) =
      openBalanceSum vs + allocTotal delta totalW vs := by
  induction vs with
  | nil => rfl
  | cons a rest ih =>
    have ha := slotBal_slotAllocate delta totalW a
    simp only [List.map_cons, openBalanceSum, List.sum_cons, allocTotal] at ih ⊢
    omega

theorem inv_replicate (n reg : Nat) :
    StateInv ⟨List.replicate n none, 0, 0, reg⟩ := by
  refine ⟨?_, ?_, Nat.le_refl 0⟩
  · simp [openBalanceSum, List.map_replicate, slotBal]
  · intro ov hmem v hv _
    rw [List.eq_of_mem_replicate hmem] at hv
    exact absurd hv (by simp)

theorem inv_initVault (s : ContractState) (now id endTime root : Nat)
    (s' : ContractState) (evs : List Event) (hInv : StateInv s)
    (h : initVault s now id endTime root = .ok (s', evs)) : StateInv s' := by
  obtain ⟨slot, hslot, _, hopen, hs', _⟩ := initVault_ok_elim s now id endTime root s' evs h
  obtain ⟨h1, h2, h3⟩ := hInv
  subst hs'
  refine ⟨?_, ?_, h3⟩
  · have hset := openBalanceSum_set s.vaults id slot (some (freshVault endTime root)) hslot
    have hold := slotBal_zero_of_not_open slot hopen
    have hnew : slotBal (some (freshVault endTime root)) = 0 := rfl
    simp only [hold, hnew] at hset
    simpa using hset.trans h1
  · intro ov hmem v hv hnot
    rcases List.mem_or_eq_of_mem_set hmem with hmem' | rfl
    · exact h2 ov hmem' v hv hnot
    · cases hv
      rfl

theorem inv_openVault (s : ContractState) (id : Nat)
    (s' : ContractState) (evs : List Event) (hInv : StateInv s)
    (h : openVault s id = .ok (s', evs)) : StateInv s' := by
  obtain ⟨v, hv, hst, hs', _⟩ := openVault_ok_elim s id s' evs h
  obtain ⟨h1, h2, h3⟩ := hInv
  have hvz : v.currentBalance = 0 :=
    h2 (some v) (List.getElem?_mem hv) v rfl (by rw [hst]; intro hc; exact absurd hc (by simp))
  subst hs'
  refine ⟨?_, ?_, h3⟩
  · have hset := openBalanceSum_set s.vaults id (some v)
      (some { v with status := VaultStatus.Open }) hv
    have hold : slotBal (some v) = 0 := by
      simp [slotBal, hst, hvz]
    have hnew : slotBal (some { v with status := VaultStatus.Open }) = 0 := by
      simp [slotBal, hvz]
    simp only [hold, hnew] at hset
    simpa using hset.trans h1
  · intro ov hmem w hw hnot
    rcases List.mem_or_eq_of_mem_set hmem with hmem' | rfl
    · exact h2 ov hmem' w hw hnot
    · cases hw
      exact absurd rfl hnot

theorem inv_closeVault (s : ContractState) (now id : Nat)
    (s' : ContractState) (evs : List Event) (hInv : StateInv s)
    (h : closeVault s now id = .ok (s', evs)) : StateInv s' := by
  obtain ⟨v, hv, hst, _, _, hbranch⟩ := closeVault_ok_elim s now id s' evs h
  obtain ⟨h1, h2, h3⟩ := hInv
  have hvbal : slotBal (some v) = v.currentBalance := slotBal_open v hst
  have hclosedbal : slotBal (some (closedVault v)) = 0 := by
    simp [slotBal, closedVault]
  have hsum1 := openBalanceSum_set s.vaults id (some v) (some (closedVault v)) hv
  rw [hvbal, hclosedbal] at hsum1
  have hRle : v.currentBalance ≤ openBalanceSum s.vaults := by
    have := slotBal_le_openBalanceSum s.vaults id (some v) hv
    omega
  rcases hbranch with ⟨j, w, hj, hw, hs'⟩ | ⟨hnone, hs'⟩
  · obtain ⟨w', hw', hw'st⟩ := firstOpen_spec _ j hj
    rw [hw] at hw'
    injection hw' with hw'
    injection hw' with hw'
    subst hw'
    have hwbal : slotBal (some w) = w.currentBalance := slotBal_open w hw'st
    have hnewbal : slotBal (some { w with
        totalAllocated := w.totalAllocated + v.currentBalance
        currentBalance := w.currentBalance + v.currentBalance }) =
        w.currentBalance + v.currentBalance := slotBal_open _ hw'st
    have hsum2 := openBalanceSum_set (s.vaults.set id (some (closedVault v))) j (some w)
      (some { w with totalAllocated := w.totalAllocated + v.currentBalance
                     currentBalance := w.currentBalance + v.currentBalance }) hw
    rw [hwbal, hnewbal] at hsum2
    subst hs'
    refine ⟨?_, ?_, h3⟩
    · simp only []
      omega
    · intro ov hmem u hu hnot
      rcases List.mem_or_eq_of_mem_set hmem with hmem' | rfl
      · rcases List.mem_or_eq_of_mem_set hmem' with hmem'' | rfl
        · exact h2 ov hmem'' u hu hnot
        · cases hu
          rfl
      · cases hu
        exact absurd hw'st hnot
  · subst hs'
    refine ⟨?_, ?_, ?_⟩
    · simp only []
      omega
    · intro ov hmem u hu hnot
      rcases List.mem_or_eq_of_mem_set hmem with hmem' | rfl
      · exact h2 ov hmem' u hu hnot
      · cases hu
        rfl
    · simp only []
      omega

theorem inv_distributeRewards (s : ContractState)
    (s' : ContractState) (evs : List Event) (hInv : StateInv s)
    (h : distributeRewards s = .ok (s', evs)) : StateInv s' := by
  obtain ⟨h1, h2, h3⟩ := hInv
  unfold distributeRewards at h
  split at h
  · simp only [] at h
    split at h
    · exact absurd h (by simp)
    · rename_i hdelta
      rw [Except.ok.injEq, Prod.mk.injEq] at h
      obtain ⟨hs', _⟩ := h
      subst hs'
      have htot := allocTotal_le_delta (s.popBalance - s.totalVaultedBalance) s.vaults
      have hsum := openBalanceSum_map_slotAllocate
        (s.popBalance - s.totalVaultedBalance) (openShareSum s.vaults) s.vaults
      refine ⟨?_, ?_, ?_⟩
      · simp only []
        omega
      · intro ov hmem u hu hnot
        simp only [List.mem_map] at hmem
        obtain ⟨ov0, hov0, hmap⟩ := hmem
        cases ov0 with
        | none => rw [← hmap] at hu; exact absurd hu (by simp [slotAllocate])
        | some u0 =>
          by_cases hst : u0.status = VaultStatus.Open
          · rw [← hmap] at hu
            simp only [slotAllocate, hst, reduceIte, Option.some.injEq] at hu
            rw [← hu] at hnot
            exact absurd rfl hnot
          · rw [← hmap] at hu
            simp only [slotAllocate, hst, reduceIte, Option.some.injEq] at hu
            subst hu
            exact h2 (some u0) hov0 u0 rfl hst
      · simp only []
        omega
  · exact absurd h (by simp)

theorem inv_claimReward (benExists : Nat → Bool) (s : ContractState)
    (sender id : Nat) (proof : List Nat) (b share : Nat)
    (s' : ContractState) (evs : List Event) (hInv : StateInv s)
    (h : claimReward benExists s sender id proof b share = .ok (s', evs)) : StateInv s' := by
  obtain ⟨_, v, hv, hbal, _, _, _, hshare, hs', _⟩ :=
    claimReward_ok_elim benExists s sender id proof b share s' evs h
  obtain ⟨h1, h2, h3⟩ := hInv
  have hst : v.status = VaultStatus.Open := by
    by_contra hc
    exact hbal (h2 (some v) (List.getElem?_mem hv) v rfl hc)
  have hent := entitlement_le v.currentBalance share v.unclaimedShare hshare
  have hvbal : slotBal (some v) = v.currentBalance := slotBal_open v hst
  have hnewbal : slotBal (some (vaultAfterClaim v b share)) =
      v.currentBalance - v.currentBalance * share / v.unclaimedShare :=
    slotBal_open _ (by simpa [vaultAfterClaim] using hst)
  have hsum := openBalanceSum_set s.vaults id (some v)
    (some (vaultAfterClaim v b share)) hv
  rw [hvbal, hnewbal] at hsum
  have hble : v.currentBalance ≤ openBalanceSum s.vaults := by
    have := slotBal_le_openBalanceSum s.vaults id (some v) hv
    omega
  subst hs'
  refine ⟨?_, ?_, ?_⟩
  · simp only [stateAfterClaim]
    omega
  · intro ov hmem u hu hnot
    rcases List.mem_or_eq_of_mem_set hmem with hmem' | rfl
    · exact h2 ov hmem' u hu hnot
    · cases hu
      exact absurd (by simpa [vaultAfterClaim] using hst) hnot
  · simp only [stateAfterClaim]
    omega

theorem inv_setBeneficiaryRegistry (s : ContractState) (newReg : Nat)
    (s' : ContractState) (evs : List Event) (hInv : StateInv s)
    (h : setBeneficiaryRegistry s newReg = .ok (s', evs)) : StateInv s' := by
  obtain ⟨_, hs', _⟩ := setBeneficiaryRegistry_ok_elim s newReg s' evs h
  subst hs'
  exact hInv

theorem inv_deposit (s : ContractState) (amount : Nat) (hInv : StateInv s) :
    StateInv (deposit s amount) := by
  obtain ⟨h1, h2, h3⟩ := hInv
  exact ⟨h1, h2, by simp [deposit]; omega⟩

/-! ## Claim theorems -/

/-- C1: every successful `claimReward` pays out exactly
`currentBalance * share / unclaimedShare` computed from the vault's state at
claim time — the emitted `RewardClaimed` amount, the token outflow and the
vault's balance decrement all equal that entitlement, and for a first
claimer (`unclaimedShare` still the full `shareTotal`) this is
`B * S / shareTotal`, not a fraction of `totalAllocated`. -/
theorem claim_payout_is_proportional_to_remaining
    (benExists : Nat → Bool) (s : ContractState) (sender id : Nat)
    (proof : List Nat) (b share : Nat) (s' : ContractState) (evs : List Event)
    (h : claimReward benExists s sender id proof b share = .ok (s', evs)) :
    ∃ v, s.vaults[id]? = some (some v) ∧
      evs = [Event.RewardClaimed id b (v.currentBalance * share / v.unclaimedShare)] ∧
      s'.popBalance = s.popBalance - v.currentBalance * share / v.unclaimedShare ∧
      s'.vaults[id]? = some (some (vaultAfterClaim v b share)) ∧
      (vaultAfterClaim v b share).currentBalance =
        v.currentBalance - v.currentBalance * share / v.unclaimedShare ∧
      (v.unclaimedShare = shareTotal →
        evs = [Event.RewardClaimed id b (v.currentBalance * share / shareTotal)]) := by
  obtain ⟨_, v, hv, _, _, _, _, _, hs', hevs⟩ :=
    claimReward_ok_elim benExists s sender id proof b share s' evs h
  have hlt : id < s.vaults.length := (List.getElem?_eq_some.mp hv).1
  subst hs'
  refine ⟨v, hv, hevs, rfl, ?_, rfl, ?_⟩
  · simp only [stateAfterClaim]
    exact List.getElem?_set_self hlt
  · intro hus
    rw [hevs, hus]

/-- C4: a successful claim marks `(id, b)` claimed, decrements the vault's
`currentBalance` by exactly the paid entitlement and its `unclaimedShare`
by exactly `share` (with `share ≤ unclaimedShare`, so it never
underflows), leaves `totalAllocated` untouched, and leaves every other
vault slot unchanged. -/
theorem claim_updates_vault_fields_exactly
    (benExists : Nat → Bool) (s : ContractState) (sender id : Nat)
    (proof : List Nat) (b share : Nat) (s' : ContractState) (evs : List Event)
    (h : claimReward benExists s sender id proof b share = .ok (s', evs)) :
    ∃ v, s.vaults[id]? = some (some v) ∧
      share ≤ v.unclaimedShare ∧
      hasClaimed s' id b = true ∧
      s'.vaults[id]? = some (some (vaultAfterClaim v b share)) ∧
      (vaultAfterClaim v b share).currentBalance =
        v.currentBalance - v.currentBalance * share / v.unclaimedShare ∧
      (vaultAfterClaim v b share).unclaimedShare = v.unclaimedShare - share ∧
      (vaultAfterClaim v b share).totalAllocated = v.totalAllocated ∧
      ∀ j, j ≠ id → s'.vaults[j]? = s.vaults[j]? := by
  obtain ⟨_, v, hv, _, _, _, _, hshare, hs', _⟩ :=
    claimReward_ok_elim benExists s sender id proof b share s' evs h
  have hlt : id < s.vaults.length := (List.getElem?_eq_some.mp hv).1
  subst hs'
  have hset : (stateAfterClaim s id v b share).vaults[id]? =
      some (some (vaultAfterClaim v b share)) := by
    simp only [stateAfterClaim]
    exact List.getElem?_set_self hlt
  refine ⟨v, hv, hshare, ?_, hset, rfl, rfl, rfl, ?_⟩
  · simp only [hasClaimed, hset, vaultAfterClaim]
    simp
  · intro j hj
    simp only [stateAfterClaim]
    exact List.getElem?_set_ne (fun hc => hj hc.symm)

/-- C3 (amended): once `(id, b)` is claimed, no further `claimReward` for
the same pair ever succeeds; and whenever the vault still holds a nonzero
balance and the registry and proof checks pass, the repeated call fails
with exactly "Already claimed".  (Failures revert atomically by
construction of the `Except` embedding, so the state is unchanged.) -/
theorem second_claim_never_succeeds :
    (∀ (benExists : Nat → Bool) (s : ContractState) (sender id : Nat)
       (proof : List Nat) (b share : Nat) (s' : ContractState) (evs : List Event),
       hasClaimed s id b = true →
       claimReward benExists s sender id proof b share ≠ .ok (s', evs)) ∧
    (∀ (benExists : Nat → Bool) (s : ContractState) (id : Nat)
       (proof : List Nat) (b share : Nat) (v : Vault),
       s.vaults[id]? = some (some v) → v.currentBalance ≠ 0 →
       benExists b = true →
       computeRoot (makeElement b share) proof = v.merkleRoot →
       b ∈ v.claimed →
       claimReward benExists s b id proof b share = .error "Already claimed") := by
  constructor
  · intro benExists s sender id proof b share s' evs hclaimed hok
    obtain ⟨_, v, hv, _, _, _, hmem, _, _, _⟩ :=
      claimReward_ok_elim benExists s sender id proof b share s' evs hok
    rw [hasClaimed, hv] at hclaimed
    simp at hclaimed
    exact hmem hclaimed
  · intro benExists s id proof b share v hv hbal hbex hroot hmem
    rw [claimReward]
    simp [hv, hbal, hbex, hroot, hmem]

/-- C8: `initializeVault` rejects an out-of-range id with "Invalid vault
id", an end time not strictly in the future with "Invalid end block", and
a currently Open vault with "Vault must not be open"; on success it
overwrites the slot with a fresh Initialized vault — `totalAllocated` and
`currentBalance` reset to 0, `unclaimedShare` to the full `shareTotal`,
claim set cleared, the given root and end time stored — and emits
`VaultInitialized(id, root)`. -/
theorem init_vault_guards_and_reset :
    (∀ (s : ContractState) (now id endTime root : Nat), s.vaults.length ≤ id →
       initVault s now id endTime root = .error "Invalid vault id") ∧
    (∀ (s : ContractState) (now id endTime root : Nat) (slot : Option Vault),
       s.vaults[id]? = some slot → endTime ≤ now →
       initVault s now id endTime root = .error "Invalid end block") ∧
    (∀ (s : ContractState) (now id endTime root : Nat) (slot : Option Vault),
       s.vaults[id]? = some slot → now < endTime → isOpenSlot slot = true →
       initVault s now id endTime root = .error "Vault must not be open") ∧
    (∀ (s : ContractState) (now id endTime root : Nat) (slot : Option Vault),
       s.vaults[id]? = some slot → now < endTime → isOpenSlot slot = false →
       initVault s now id endTime root =
         .ok ({ s with vaults := s.vaults.set id (some (freshVault endTime root)) },
              [Event.VaultInited id root])) := by
  refine ⟨?_, ?_, ?_, ?_⟩
  · intro s now id endTime root hlen
    rw [initVault, List.getElem?_eq_none_iff.mpr hlen]
  · intro s now id endTime root slot hslot hend
    rw [initVault, hslot]
    simp [hend]
  · intro s now id endTime root slot hslot hend hopen
    rw [initVault, hslot]
    simp [Nat.not_le_of_lt hend, hopen]
  · intro s now id endTime root slot hslot hend hopen
    rw [initVault, hslot]
    simp [Nat.not_le_of_lt hend, hopen, freshVault]

/-- C10: `setBeneficiaryRegistry` rejects the currently configured
address with "Same BeneficiaryRegistry" (the reference is unchanged since
the call reverts), and with any other address succeeds and emits
`BeneficiaryRegistryChanged(old, new)`. -/
theorem set_registry_rejects_noop :
    (∀ s : ContractState,
       setBeneficiaryRegistry s s.registry = .error "Same BeneficiaryRegistry") ∧
    (∀ (s : ContractState) (newReg : Nat), newReg ≠ s.registry →
       setBeneficiaryRegistry s newReg =
         .ok ({ s with registry := newReg },
              [Event.BeneficiaryRegistryChanged s.registry newReg])) := by
  constructor
  · intro s
    simp [setBeneficiaryRegistry]
  · intro s newReg hne
    simp [setBeneficiaryRegistry, hne]

/-- C2: the total-vaulted-balance invariant — the sum of `currentBalance`
over all Open vaults equals the tracked `totalVaultedBalance` — holds in
the initial (all-uninitialized) state and is preserved by every
state-mutating operation, in particular by every successful
`distributeRewards` and `claimReward`, hence by any sequence of them
(`StateInv` strengthens the equality with the auxiliary facts that make it
inductive). -/
theorem vaulted_balance_invariant_preserved :
    (∀ n reg, StateInv ⟨List.replicate n none, 0, 0, reg⟩) ∧
    (∀ (s s' : ContractState) (evs : List Event) (now id endTime root : Nat),
       StateInv s → initVault s now id endTime root = .ok (s', evs) → StateInv s') ∧
    (∀ (s s' : ContractState) (evs : List Event) (id : Nat),
       StateInv s → openVault s id = .ok (s', evs) → StateInv s') ∧
    (∀ (s s' : ContractState) (evs : List Event) (now id : Nat),
       StateInv s → closeVault s now id = .ok (s', evs) → StateInv s') ∧
    (∀ (s s' : ContractState) (evs : List Event),
       StateInv s → distributeRewards s = .ok (s', evs) → StateInv s') ∧
    (∀ (benExists : Nat → Bool) (s s' : ContractState) (evs : List Event)
       (sender id : Nat) (proof : List Nat) (b share : Nat),
       StateInv s → claimReward benExists s sender id proof b share = .ok (s', evs) →
       StateInv s') ∧
    (∀ (s s' : ContractState) (evs : List Event) (newReg : Nat),
       StateInv s → setBeneficiaryRegistry s newReg = .ok (s', evs) → StateInv s') ∧
    (∀ (s : ContractState) (amount : Nat),
       StateInv s → StateInv (deposit s amount)) :=
  ⟨inv_replicate,
   fun s s' evs now id endTime root hi h => inv_initVault s now id endTime root s' evs hi h,
   fun s s' evs id hi h => inv_openVault s id s' evs hi h,
   fun s s' evs now id hi h => inv_closeVault s now id s' evs hi h,
   fun s s' evs hi h => inv_distributeRewards s s' evs hi h,
   fun benExists s s' evs sender id proof b share hi h =>
     inv_claimReward benExists s sender id proof b share s' evs hi h,
   fun s s' evs newReg hi h => inv_setBeneficiaryRegistry s newReg s' evs hi h,
   inv_deposit⟩

/-- C5: closing an Open vault past its `endTime` while another Open vault
remains zeroes the closed vault's `currentBalance` and adds its remaining
balance `R` to both `totalAllocated` and `currentBalance` of the redirect
target (the first remaining Open vault), leaving that vault's
`unclaimedShare` and claim set — and the tracked vaulted balance —
unchanged. -/
theorem close_redirects_remainder_to_open_vault
    (s : ContractState) (now id : Nat) (s' : ContractState) (evs : List Event)
    (v w : Vault) (j : Nat)
    (hv : s.vaults[id]? = some (some v))
    (hj : firstOpen (s.vaults.set id (some (closedVault v))) = some j)
    (hw : (s.vaults.set id (some (closedVault v)))[j]? = some (some w))
    (h : closeVault s now id = .ok (s', evs)) :
    evs = [Event.VaultClosed id] ∧
    s'.vaults[id]? = some (some (closedVault v)) ∧
    (closedVault v).currentBalance = 0 ∧
    s'.vaults[j]? = some (some { w with
      totalAllocated := w.totalAllocated + v.currentBalance
      currentBalance := w.currentBalance + v.currentBalance }) ∧
    ({ w with totalAllocated := w.totalAllocated + v.currentBalance
              currentBalance := w.currentBalance + v.currentBalance } : Vault).unclaimedShare
      = w.unclaimedShare ∧
    ({ w with totalAllocated := w.totalAllocated + v.currentBalance
              currentBalance := w.currentBalance + v.currentBalance } : Vault).claimed
      = w.claimed ∧
    s'.totalVaultedBalance = s.totalVaultedBalance ∧
    s'.popBalance = s.popBalance := by
  obtain ⟨v', hv', _, _, hevs, hbranch⟩ := closeVault_ok_elim s now id s' evs h
  rw [hv] at hv'
  injection hv' with hv'
  injection hv' with hv'
  subst hv'
  have hlt : id < s.vaults.length := (List.getElem?_eq_some.mp hv).1
  have hjlt : j < (s.vaults.set id (some (closedVault v))).length :=
    (List.getElem?_eq_some.mp hw).1
  obtain ⟨wo, hwo, hwost⟩ := firstOpen_spec _ j hj
  rw [hw] at hwo
  injection hwo with hwo
  injection hwo with hwo
  subst hwo
  have hjid : j ≠ id := by
    intro hc
    subst hc
    rw [List.getElem?_set_self (by omega)] at hw
    injection hw with hw
    injection hw with hw
    rw [← hw] at hwost
    exact absurd hwost (by simp [closedVault])
  rcases hbranch with ⟨j', w', hj', hw', hs'⟩ | ⟨hnone, _⟩
  · rw [hj] at hj'
    injection hj' with hj'
    subst hj'
    rw [hw] at hw'
    injection hw' with hw'
    injection hw' with hw'
    subst hw'
    subst hs'
    refine ⟨hevs, ?_, by simp [closedVault], ?_, rfl, rfl, rfl, rfl⟩
    · simp only []
      rw [List.getElem?_set_ne hjid, List.getElem?_set_self hlt]
    · simp only []
      rw [List.getElem?_set_self hjlt]
  · rw [hj] at hnone
    exact absurd hnone (by simp)

/-- C6: closing an Open vault past its `endTime` when no Open vault
remains sends the remaining balance `R` to the treasury sink — the
contract-held token balance drops by exactly `R` — marks the vault Closed
with zero `currentBalance`, and zeroes the tracked total vaulted balance
(given the state invariant, which forces the tracked balance to equal
`R`). -/
theorem close_sends_remainder_to_treasury
    (s : ContractState) (now id : Nat) (s' : ContractState) (evs : List Event)
    (v : Vault)
    (hv : s.vaults[id]? = some (some v))
    (hnone : firstOpen (s.vaults.set id (some (closedVault v))) = none)
    (hInv : StateInv s)
    (h : closeVault s now id = .ok (s', evs)) :
    evs = [Event.VaultClosed id] ∧
    s'.vaults[id]? = some (some (closedVault v)) ∧
    (closedVault v).status = VaultStatus.Closed ∧
    (closedVault v).currentBalance = 0 ∧
    s'.totalVaultedBalance = 0 ∧
    s'.popBalance + v.currentBalance = s.popBalance := by
  obtain ⟨v', hv', hst, _, hevs, hbranch⟩ := closeVault_ok_elim s now id s' evs h
  rw [hv] at hv'
  injection hv' with hv'
  injection hv' with hv'
  subst hv'
  obtain ⟨h1, h2, h3⟩ := hInv
  have hlt : id < s.vaults.length := (List.getElem?_eq_some.mp hv).1
  have hsum1 := openBalanceSum_set s.vaults id (some v) (some (closedVault v)) hv
  rw [slotBal_open v hst] at hsum1
  have hclosedbal : slotBal (some (closedVault v)) = 0 := by simp [slotBal, closedVault]
  rw [hclosedbal] at hsum1
  have hzero : openBalanceSum (s.vaults.set id (some (closedVault v))) = 0 :=
    openBalanceSum_eq_zero _ (firstOpen_none _ hnone)
  rcases hbranch with ⟨j, w, hj, _, _⟩ | ⟨_, hs'⟩
  · rw [hj] at hnone
    exact absurd hnone (by simp)
  · subst hs'
    refine ⟨hevs, ?_, rfl, by simp [closedVault], ?_, ?_⟩
    · simp only []
      rw [List.getElem?_set_self hlt]
    · simp only []
      omega
    · simp only []
      omega

/-! ## Distribution with a single Open vault -/

theorem openShareSum_eq_zero (vs : List (Option Vault))
    (h : ∀ ov ∈ vs, isOpenSlot ov = false) : openShareSum vs = 0 := by
  induction vs with
  | nil => rfl
  | cons a rest ih =>
    have ha := h a (by simp)
    have hrest := ih (fun ov hov => h ov (by simp [hov]))
    have hb : slotShare a = 0 := by
      cases a with
      | none => rfl
      | some v =>
        have ha' : v.status ≠ VaultStatus.Open := by
          simpa [isOpenSlot] using ha
        simp [slotShare, ha']
    have hsplit : openShareSum (a :: rest) = slotShare a + openShareSum rest := by
      simp [openShareSum]
    omega

theorem allocTotal_eq_zero (delta totalW : Nat) (vs : List (Option Vault))
    (h : ∀ ov ∈ vs, isOpenSlot ov = false) : allocTotal delta totalW vs = 0 := by
  induction vs with
  | nil => rfl
  | cons a rest ih =>
    have ha := h a (by simp)
    have hrest := ih (fun ov hov => h ov (by simp [hov]))
    have hb : slotShare a = 0 := by
      cases a with
      | none => rfl
      | some v =>
        have ha' : v.status ≠ VaultStatus.Open := by
          simpa [isOpenSlot] using ha
        simp [slotShare, ha']
    have hsplit : allocTotal delta totalW (a :: rest)
        = allocOf delta (slotShare a) totalW + allocTotal delta totalW rest := by
      simp [allocTotal]
    rw [hsplit, hb, hrest]
    simp [allocOf]

theorem map_slotAllocate_nonopen (delta totalW : Nat) (vs : List (Option Vault))
    (h : ∀ ov ∈ vs, isOpenSlot ov = false) :
    vs.map (slotAllocate delta totalW) = vs := by
  induction vs with
  | nil => rfl
  | cons a rest ih =>
    have ha := h a (by simp)
    have hrest := ih (fun ov hov => h ov (by simp [hov]))
    have hb : slotAllocate delta totalW a = a := by
      cases a with
      | none => rfl
      | some v =>
        have ha' : v.status ≠ VaultStatus.Open := by
          simpa [isOpenSlot] using ha
        simp [slotAllocate, ha']
    simp [hb, hrest]

theorem allocEvents_nonopen (delta totalW : Nat) (vs : List (Option Vault))
    (h : ∀ ov ∈ vs, isOpenSlot ov = false) :
    ∀ i, allocEvents delta totalW i vs = [] := by
  induction vs with
  | nil => intro i; rfl
  | cons a rest ih =>
    intro i
    have ha := h a (by simp)
    have hrest := ih (fun ov hov => h ov (by simp [hov]))
    simp [allocEvents, ha, hrest]

theorem allocEvents_append_nonopen (delta totalW : Nat) (pre rest : List (Option Vault))
    (h : ∀ ov ∈ pre, isOpenSlot ov = false) :
    ∀ i, allocEvents delta totalW i (pre ++ rest)
      = allocEvents delta totalW (i + pre.length) rest := by
  induction pre with
  | nil => intro i; simp
  | cons a pr ih =>
    intro i
    have ha := h a (by simp)
    have := ih (fun ov hov => h ov (by simp [hov])) (i + 1)
    simp only [List.cons_append, allocEvents, ha, Bool.false_eq_true, reduceIte,
      List.nil_append, List.length_cons] at this ⊢
    have hgoal : allocEvents delta totalW (i + 1 + pr.length) rest
        = allocEvents delta totalW (i + (pr.length + 1)) rest := by
      congr 1
      omega
    exact this.trans hgoal

/-- C7: `distributeRewards` fails with "No open vaults" when no vault is
Open; and with exactly one Open vault (with nonzero unclaimed share) and a
fresh token delta `d` since the last distribution, it credits the full
delta to that vault — `totalAllocated` and `currentBalance` each grow by
`d` (so a fresh vault ends at exactly `d`) — raises the tracked vaulted
balance by `d`, and emits `RewardAllocated(slot, d)` followed by
`RewardsDistributed(d)`. -/
theorem distribute_single_open_vault_gets_delta :
    (∀ s : ContractState, (∀ ov ∈ s.vaults, isOpenSlot ov = false) →
       distributeRewards s = .error "No open vaults") ∧
    (∀ (s : ContractState) (pre post : List (Option Vault)) (v : Vault) (d : Nat),
       s.vaults = pre ++ some v :: post →
       v.status = VaultStatus.Open →
       (∀ ov ∈ pre, isOpenSlot ov = false) →
       (∀ ov ∈ post, isOpenSlot ov = false) →
       0 < v.unclaimedShare →
       s.popBalance = s.totalVaultedBalance + d →
       0 < d →
       distributeRewards s = .ok
         ({ s with
              vaults := pre ++ some { v with
                totalAllocated := v.totalAllocated + d
                currentBalance := v.currentBalance + d } :: post
              totalVaultedBalance := s.totalVaultedBalance + d },
          [Event.RewardAllocated pre.length d, Event.RewardsDistributed d])) := by
  constructor
  · intro s h
    have hany : s.vaults.any isOpenSlot = false := by
      simp only [List.any_eq_false]
      intro ov hov
      simp [h ov hov]
    rw [distributeRewards, hany]
    simp
  · intro s pre post v d hvaults hst hpre hpost hus hpop hd
    have hopen : isOpenSlot (some v) = true := by simp [isOpenSlot, hst]
    have hany : s.vaults.any isOpenSlot = true := by
      rw [hvaults]
      refine List.any_eq_true.mpr ⟨some v, by simp, hopen⟩
    have hdelta : s.popBalance - s.totalVaultedBalance = d := by omega
    have hW : openShareSum s.vaults = v.unclaimedShare := by
      rw [hvaults]
      have hpre0 := openShareSum_eq_zero pre hpre
      have hpost0 := openShareSum_eq_zero post hpost
      simp only [openShareSum, List.map_append, List.sum_append, List.map_cons,
        List.sum_cons] at hpre0 hpost0 ⊢
      rw [hpre0, hpost0]
      simp [slotShare, hst]
    have hallocv : allocOf d v.unclaimedShare v.unclaimedShare = d := by
      simp [allocOf, Nat.mul_div_cancel d hus]
    have htotal : allocTotal d v.unclaimedShare s.vaults = d := by
      rw [hvaults]
      have hpre0 := allocTotal_eq_zero d v.unclaimedShare pre hpre
      have hpost0 := allocTotal_eq_zero d v.unclaimedShare post hpost
      simp only [allocTotal, List.map_append, List.sum_append, List.map_cons,
        List.sum_cons] at hpre0 hpost0 ⊢
      rw [hpre0, hpost0]
      simp only [slotShare, hst, reduceIte]
      simpa using hallocv
    have hmap : s.vaults.map (slotAllocate d v.unclaimedShare)
        = pre ++ some { v with
            totalAllocated := v.totalAllocated + d
            currentBalance := v.currentBalance + d } :: post := by
      rw [hvaults, List.map_append, List.map_cons,
        map_slotAllocate_nonopen d v.unclaimedShare pre hpre,
        map_slotAllocate_nonopen d v.unclaimedShare post hpost]
      simp [slotAllocate, hst, hallocv]
    have hevents : allocEvents d v.unclaimedShare 0 s.vaults
        = [Event.RewardAllocated pre.length d] := by
      rw [hvaults, allocEvents_append_nonopen d v.unclaimedShare pre _ hpre 0]
      simp only [allocEvents, hopen, reduceIte, Nat.zero_add]
      rw [allocEvents_nonopen d v.unclaimedShare post hpost]
      simp only [slotShare, hst, reduceIte]
      simp [hallocv]
    rw [distributeRewards, hany]
    simp only [reduceIte, hdelta, hW]
    rw [if_neg (by omega)]
    rw [htotal, hmap, hevents]
    rfl

/-! ## Merkle tree construction and the verification round trip -/

theorem hashPair_comm (a b : Nat) : hashPair a b = hashPair b a := by
  simp [hashPair, Nat.min_comm, Nat.max_comm]

theorem combineLevel_length : ∀ l : List Nat,
    (combineLevel l).length = (l.length + 1) / 2
  | [] => by simp [combineLevel]
  | [_] => by simp [combineLevel]
  | _ :: _ :: rest => by
    have := combineLevel_length rest
    simp only [combineLevel, List.length_cons]
    omega

theorem combineLevel_getD : ∀ (l : List Nat) (k : Nat), 2 * k < l.length →
    (combineLevel l).getD k 0 =
      if 2 * k + 1 < l.length then hashPair (l.getD (2 * k) 0) (l.getD (2 * k + 1) 0)
      else l.getD (2 * k) 0
  | [], k, h => by simp at h
  | [a], k, h => by
    have hk : k = 0 := by simpa using h
    subst hk
    simp [combineLevel]
  | a :: b :: rest, k, h => by
    cases k with
    | zero => simp [combineLevel]
    | succ k' =>
      have hrest : 2 * k' < rest.length := by
        simp only [List.length_cons] at h
        omega
      have := combineLevel_getD rest k' hrest
      have hsplit : (combineLevel (a :: b :: rest)).getD (k' + 1) 0
          = (combineLevel rest).getD k' 0 := by
        simp [combineLevel]
      rw [hsplit, this]
      have h1 : (a :: b :: rest).getD (2 * (k' + 1)) 0 = rest.getD (2 * k') 0 := by
        have : 2 * (k' + 1) = 2 * k' + 1 + 1 := by omega
        rw [this]
        simp
      have h2 : (a :: b :: rest).getD (2 * (k' + 1) + 1) 0 = rest.getD (2 * k' + 1) 0 := by
        have : 2 * (k' + 1) + 1 = 2 * k' + 1 + 1 + 1 := by omega
        rw [this]
        simp
      have hlen : (2 * (k' + 1) + 1 < (a :: b :: rest).length) ↔
          (2 * k' + 1 < rest.length) := by
        simp only [List.length_cons]
        omega
      by_cases hc : 2 * k' + 1 < rest.length
      · rw [if_pos hc, if_pos (hlen.mpr hc), h1, h2]
      · rw [if_neg hc, if_neg (fun hx => hc (hlen.mp hx)), h1]

/-- Walking the generated proof path from any committed leaf reproduces the
root of the allocation set. -/
theorem computeRoot_getProofAt : ∀ (l : List Nat) (i : Nat), i < l.length →
    computeRoot (l.getD i 0) (getProofAt l i) = rootOfLeaves l
  | [], i, h => by simp at h
  | [a], i, h => by
    have hi : i = 0 := by simpa using h
    subst hi
    simp [getProofAt, computeRoot, rootOfLeaves]
  | a :: b :: rest, i, h => by
    have hcl : (combineLevel (a :: b :: rest)).length
        = ((a :: b :: rest).length + 1) / 2 := combineLevel_length _
    have hdiv : i / 2 < (combineLevel (a :: b :: rest)).length := by
      rw [hcl]
      simp only [List.length_cons] at h ⊢
      omega
    have ih := computeRoot_getProofAt (combineLevel (a :: b :: rest)) (i / 2) hdiv
    have hroot : rootOfLeaves (a :: b :: rest)
        = rootOfLeaves (combineLevel (a :: b :: rest)) := by
      rw [rootOfLeaves]
    have hnode := combineLevel_getD (a :: b :: rest) (i / 2) (by
      simp only [List.length_cons] at h ⊢
      omega)
    rw [getProofAt, hroot, ← ih]
    by_cases hodd : i % 2 = 1
    · have h2i : 2 * (i / 2) = i - 1 := by omega
      have h2i1 : 2 * (i / 2) + 1 = i := by omega
      rw [if_pos hodd]
      have hcond : 2 * (i / 2) + 1 < (a :: b :: rest).length := by omega
      rw [if_pos hcond, h2i1, h2i] at hnode
      simp only [List.singleton_append, computeRoot, List.foldl_cons]
      rw [hnode, hashPair_comm]
    · have heven : i % 2 = 0 := by omega
      rw [if_neg hodd]
      have h2i : 2 * (i / 2) = i := by omega
      by_cases hlast : i + 1 < (a :: b :: rest).length
      · rw [if_pos hlast]
        have hcond : 2 * (i / 2) + 1 < (a :: b :: rest).length := by omega
        rw [if_pos hcond, h2i] at hnode
        simp only [List.singleton_append, computeRoot, List.foldl_cons]
        rw [hnode]
      · rw [if_neg hlast]
        have hcond : ¬ (2 * (i / 2) + 1 < (a :: b :: rest).length) := by omega
        rw [if_neg hcond, h2i] at hnode
        simp only [List.nil_append, computeRoot]
        rw [hnode]
termination_by l i _ => l.length
decreasing_by
  simp only [combineLevel, List.length_cons, combineLevel_length]
  omega

/-- C9: `verifyClaim` is read-only (it returns only a `Bool`, no state) and
returns true exactly when the `(beneficiary, share)` leaf hash, combined
along the proof path with the sorted-pair combiner, reproduces the vault's
stored `merkleRoot`; in particular every pair included when the root was
computed by the Merkle construction verifies true with its generated
proof path. -/
theorem verify_claim_root_equation :
    (∀ (s : ContractState) (id : Nat) (proof : List Nat) (b share : Nat) (v : Vault),
       s.vaults[id]? = some (some v) →
       (verifyClaim s id proof b share = .ok true ↔
         computeRoot (makeElement b share) proof = v.merkleRoot)) ∧
    (∀ (s : ContractState) (id : Nat) (b share : Nat) (v : Vault)
       (leaves : List Nat) (i : Nat),
       s.vaults[id]? = some (some v) →
       i < leaves.length →
       leaves.getD i 0 = makeElement b share →
       v.merkleRoot = rootOfLeaves leaves →
       verifyClaim s id (getProofAt leaves i) b share = .ok true) := by
  constructor
  · intro s id proof b share v hv
    rw [verifyClaim, hv]
    constructor
    · intro hok
      injection hok with hok
      simpa using hok
    · intro heq
      simp [heq]
  · intro s id b share v leaves i hv hlen hleaf hroot
    rw [verifyClaim, hv]
    have := computeRoot_getProofAt leaves i hlen
    rw [hleaf] at this
    rw [this, ← hroot]
    simp

/-! ## Concrete scenarios -/

theorem claim_payout_witness :
    claimReward wBenEx wStateA 7 0 [] 7 25
      = .ok (wStateA', [Event.RewardClaimed 0 7 10]) ∧
    ∃ v, wStateA.vaults[0]? = some (some v) ∧
      [Event.RewardClaimed 0 7 10]
        = [Event.RewardClaimed 0 7 (v.currentBalance * 25 / v.unclaimedShare)] := by
  refine ⟨by decide, ?_⟩
  obtain ⟨v, hv, hevs, _⟩ := claim_payout_is_proportional_to_remaining wBenEx wStateA 7 0
    [] 7 25 wStateA' [Event.RewardClaimed 0 7 10] (by decide)
  exact ⟨v, hv, hevs⟩

theorem claim_updates_witness :
    ∃ v, wStateA.vaults[0]? = some (some v) ∧ 25 ≤ v.unclaimedShare ∧
      hasClaimed wStateA' 0 7 = true := by
  obtain ⟨v, hv, hsh, hcl, _⟩ := claim_updates_vault_fields_exactly wBenEx wStateA 7 0
    [] 7 25 wStateA' [Event.RewardClaimed 0 7 10] (by decide)
  exact ⟨v, hv, hsh, hcl⟩

/-- C3 counterexample: beneficiary 7 holds the whole share total; the
first claim succeeds and drains the vault, and the second identical call
fails with "No reward" — not with "Already claimed" as the claim states —
because the zero-balance check (spec §4.4 step 2) precedes the
already-claimed check (step 5). -/
theorem second_claim_counterexample :
    claimReward wBenEx cStateFull 7 0 [] 7 100
      = .ok (cStateDrained, [Event.RewardClaimed 0 7 10]) ∧
    hasClaimed cStateDrained 0 7 = true ∧
    claimReward wBenEx cStateDrained 7 0 [] 7 100 = .error "No reward" := by
  decide

theorem second_claim_witness :
    claimReward wBenEx cStatePart 7 0 [] 7 100 = .error "Already claimed" :=
  second_claim_never_succeeds.2 wBenEx cStatePart 0 [] 7 100 cVaultPart
    (by decide) (by decide) (by decide) (by decide) (by decide)

theorem init_vault_witness :
    w8State.vaults[0]? = some none ∧ (100 : Nat) < 200 ∧ isOpenSlot none = false ∧
    initVault w8State 100 0 200 5 =
      .ok ({ w8State with vaults := w8State.vaults.set 0 (some (freshVault 200 5)) },
           [Event.VaultInited 0 5]) :=
  ⟨by decide, by decide, rfl,
   init_vault_guards_and_reset.2.2.2 w8State 100 0 200 5 none (by decide) (by decide) rfl⟩

theorem set_registry_witness :
    (5 : Nat) ≠ wStateA.registry ∧
    setBeneficiaryRegistry wStateA 5 =
      .ok ({ wStateA with registry := 5 },
           [Event.BeneficiaryRegistryChanged wStateA.registry 5]) :=
  ⟨by decide, set_registry_rejects_noop.2 wStateA 5 (by decide)⟩

theorem vaulted_balance_invariant_witness : StateInv w2State' :=
  vaulted_balance_invariant_preserved.2.2.2.2.1 w2State w2State'
    [Event.RewardAllocated 0 10, Event.RewardsDistributed 10]
    ⟨by decide, by
      intro ov hov v hv hnot
      simp only [w2State, List.mem_singleton] at hov
      subst hov
      injection hv with hv
      subst hv
      exact absurd (by decide) hnot, by decide⟩
    (by decide)

theorem close_redirect_witness :
    closeVault w5State 50 0 = .ok (w5State', [Event.VaultClosed 0]) ∧
    w5State'.vaults[1]? = some (some { w5V1 with
      totalAllocated := w5V1.totalAllocated + w5V0.currentBalance
      currentBalance := w5V1.currentBalance + w5V0.currentBalance }) ∧
    w5State'.totalVaultedBalance = w5State.totalVaultedBalance :=
  ⟨by decide,
   (close_redirects_remainder_to_open_vault w5State 50 0 w5State' [Event.VaultClosed 0]
      w5V0 w5V1 1 (by decide) (by decide) (by decide) (by decide)).2.2.2.1,
   (close_redirects_remainder_to_open_vault w5State 50 0 w5State' [Event.VaultClosed 0]
      w5V0 w5V1 1 (by decide) (by decide) (by decide) (by decide)).2.2.2.2.2.2.1⟩

theorem close_treasury_witness :
    closeVault w6State 50 0 = .ok (w6State', [Event.VaultClosed 0]) ∧
    w6State'.totalVaultedBalance = 0 ∧
    w6State'.popBalance + w6Vault.currentBalance = w6State.popBalance := by
  refine ⟨by decide, ?_, ?_⟩
  · exact (close_sends_remainder_to_treasury w6State 50 0 w6State' [Event.VaultClosed 0]
      w6Vault (by decide) (by decide)
      ⟨by decide, by
        intro ov hov v hv hnot
        simp only [w6State, List.mem_cons, List.mem_singleton] at hov
        rcases hov with rfl | rfl | h
        · injection hv with hv
          subst hv
          exact absurd (by decide) hnot
        · exact absurd hv (by simp)
        · exact absurd h (List.not_mem_nil ov), by decide⟩
      (by decide)).2.2.2.2.1
  · exact (close_sends_remainder_to_treasury w6State 50 0 w6State' [Event.VaultClosed 0]
      w6Vault (by decide) (by decide)
      ⟨by decide, by
        intro ov hov v hv hnot
        simp only [w6State, List.mem_cons, List.mem_singleton] at hov
        rcases hov with rfl | rfl | h
        · injection hv with hv
          subst hv
          exact absurd (by decide) hnot
        · exact absurd hv (by simp)
        · exact absurd h (List.not_mem_nil ov), by decide⟩
      (by decide)).2.2.2.2.2

theorem distribute_witness :
    distributeRewards w7State = .ok
      ({ w7State with
           vaults := [none] ++ some { w7Vault with
             totalAllocated := w7Vault.totalAllocated + 10
             currentBalance := w7Vault.currentBalance + 10 } :: ([] : List (Option Vault))
           totalVaultedBalance := w7State.totalVaultedBalance + 10 },
       [Event.RewardAllocated ([none] : List (Option Vault)).length 10,
        Event.RewardsDistributed 10]) :=
  distribute_single_open_vault_gets_delta.2 w7State [none] [] w7Vault 10
    rfl rfl (by decide) (by decide) (by decide) (by decide) (by decide)

theorem verify_claim_witness :
    verifyClaim w9State 0 (getProofAt w9Leaves 0) 7 25 = .ok true :=
  verify_claim_root_equation.2 w9State 0 7 25 w9Vault w9Leaves 0
    rfl (by decide) rfl rfl

